import Mathlib

/-!
Verification of the Doc-viewer annotation workspace.

Shallow embedding of the core logic of the repository:
* `HistoryManager` from src/components/doc-workspace/doc-workspace.tsx
  (lines 133-153): a generic undo/redo stack.  The JS arrays `undoStack`
  and `redoStack` are modelled as Lean lists whose HEAD is the JS array
  END (the top of the stack), so `array.push` is `cons` and `array.pop`
  takes the head.  The JS deep copy `JSON.parse(JSON.stringify(x))` is
  the identity on pure values and is therefore dropped.
* the coordinate conversions of src/components/doc-page/doc-page.tsx
  (`onMouseUp`, `redrawHighlightsFromProps`), with pixel and normalized
  coordinates modelled as rationals (exact arithmetic in place of IEEE
  floating point, so "within floating-point tolerance" becomes exact
  equality).
* the canonical-state operations of
  src/components/doc-viewer/doc-viewer.tsx (`undo`, `redo`,
  `saveSidebarAnnotation`, `onImportFileChange`).  A JS
  `Record<number, T[]>` is modelled as a total function `Nat → List T`
  (an absent key reads as the empty list, matching `this.comments[page]
  || []`), and a fallible JSON.parse is modelled by an `Option` input.
-/

/-- A normalized rectangle, fractions of the render surface size
(src/types/annotations.ts, used throughout doc-page.tsx). -/
structure NormalizedRect where
  x : ℚ
  y : ℚ
  width : ℚ
  height : ℚ
deriving DecidableEq, Repr

/-- `AnnotationKind` from src/types/comments.ts. -/
inductive AnnotationKind where
  | comment
  | note
deriving DecidableEq, Repr

/-- `PageComment` from src/types/comments.ts. -/
structure PageComment where
  id : String
  kind : AnnotationKind
  x : ℚ
  y : ℚ
  text : String
  tag : String
  createdAt : String
deriving DecidableEq, Repr

/-- A JS `Record<number, T[]>`: lookup of an absent key yields `[]`,
matching `this.comments[page] || []` in doc-viewer.tsx. -/
def PageMap (α : Type) : Type := Nat → List α

/-- The empty JS object, the default used by the import handler when a
top-level key is missing. -/
def PageMap.empty (α : Type) : PageMap α := fun _ => []

/-- The JS spread update that copies the mapping, sets key `p` to `l`,
and keeps every other key unchanged. -/
def PageMap.setPage {α : Type} (m : PageMap α) (p : Nat) (l : List α) :
    PageMap α :=
  fun q => if q = p then l else m q

/-- `HistoryManager<T>` (doc-workspace.tsx lines 133-136).  List head is
the top of the stack. -/
structure HistoryManager (T : Type) where
  undoStack : List T
  redoStack : List T
deriving DecidableEq, Repr

/-- A freshly constructed `new HistoryManager()`: both stacks empty. -/
def HistoryManager.new (T : Type) : HistoryManager T :=
  { undoStack := [], redoStack := [] }

/-- `pushState(state)` (doc-workspace.tsx lines 137-140): pushes a deep
copy of `state` onto the undo stack and clears the redo stack. -/
def HistoryManager.pushState {T : Type} (h : HistoryManager T) (state : T) :
    HistoryManager T :=
  { undoStack := state :: h.undoStack, redoStack := [] }

/-- `undo(current)` (doc-workspace.tsx lines 142-146): if the undo stack
is empty returns `null` and leaves the manager untouched; otherwise
pushes a deep copy of `current` onto the redo stack and pops and returns
the top of the undo stack.  The returned pair is (returned value,
manager after the call). -/
def HistoryManager.undo {T : Type} (h : HistoryManager T) (current : T) :
    Option T × HistoryManager T :=
  match h.undoStack with
  | [] => (none, h)
  | top :: rest =>
      (some top, { undoStack := rest, redoStack := current :: h.redoStack })

/-- `redo(current)` (doc-workspace.tsx lines 148-152): symmetric to
`undo`. -/
def HistoryManager.redo {T : Type} (h : HistoryManager T) (current : T) :
    Option T × HistoryManager T :=
  match h.redoStack with
  | [] => (none, h)
  | top :: rest =>
      (some top, { undoStack := current :: h.undoStack, redoStack := rest })

/-- Driver for C1: a sequence of pushState-then-mutate pairs.  `s` is the
current canonical state; each element `s'` of `muts` is the state after
the next mutation; `pushState` is passed the state as it was immediately
before that mutation, exactly as every mutating handler of doc-viewer.tsx
calls `this.pushHistory()` before assigning new state.  Returns the
manager and the final current state. -/
def pushMutateRun {T : Type} (h : HistoryManager T) (s : T) :
    List T → HistoryManager T × T
  | [] => (h, s)
  | s' :: rest => pushMutateRun (h.pushState s) s' rest

/-- Driver for C1: `n` successive undo calls, each passed the then-current
state; each returned snapshot is adopted as the new current state, and a
`none` result leaves the current state unchanged, exactly as
`DocViewer.undo` (doc-viewer.tsx lines 143-152) checks `if (!state)
return` before adopting. -/
def undoAdopt {T : Type} (h : HistoryManager T) (s : T) :
    Nat → HistoryManager T × T
  | 0 => (h, s)
  | n + 1 =>
      match h.undo s with
      | (none, h') => undoAdopt h' s n
      | (some snap, h') => undoAdopt h' snap n

/-- The theme values of doc-viewer.tsx. -/
inductive Theme where
  | light
  | dark
  | sepia
deriving DecidableEq, Repr

/-- The mode values of doc-viewer.tsx. -/
inductive Mode where
  | viewer
  | editor
deriving DecidableEq, Repr

/-- The `activeTool` values of doc-viewer.tsx. -/
inductive Tool where
  | select
  | highlight
  | comment
  | note
deriving DecidableEq, Repr

/-- The object pushed to and returned from the history manager by
doc-viewer.tsx: the pair of the annotations and comments mappings. -/
structure Snapshot where
  annotations : PageMap NormalizedRect
  comments : PageMap PageComment

/-- The state of a `DocViewer` component relevant to the annotation
logic (the `@State` fields of doc-viewer.tsx plus its private
`history`). -/
structure ViewerState where
  annotations : PageMap NormalizedRect
  comments : PageMap PageComment
  history : HistoryManager Snapshot
  sidebarOpen : Bool
  sidebarPage : Option Nat
  sidebarSelectedId : Option String
  sidebarDraftText : String
  sidebarDraftTag : String
  theme : Theme
  mode : Mode
  activeTool : Tool

/-- The current canonical snapshot passed to the history manager by
every call site in doc-viewer.tsx. -/
def ViewerState.snapshot (st : ViewerState) : Snapshot :=
  { annotations := st.annotations, comments := st.comments }

/-- `DocViewer.undo` (doc-viewer.tsx lines 143-152): calls
`history.undo` with the current snapshot; if it returns `null` the
canonical state is left untouched, otherwise the returned snapshot is
adopted as the new canonical state. -/
def viewerUndo (st : ViewerState) : ViewerState :=
  match st.history.undo st.snapshot with
  | (none, _) => st
  | (some snap, h') =>
      { st with annotations := snap.annotations, comments := snap.comments,
                history := h' }

/-- `DocViewer.redo` (doc-viewer.tsx lines 154-163): symmetric to
`viewerUndo`. -/
def viewerRedo (st : ViewerState) : ViewerState :=
  match st.history.redo st.snapshot with
  | (none, _) => st
  | (some snap, h') =>
      { st with annotations := snap.annotations, comments := snap.comments,
                history := h' }

/-- JS `Array.prototype.findIndex` together with the subsequent indexing
`list[idx]`: returns the index of the first element satisfying `p` and
that element, or `none` when the JS call returns -1. -/
def findIdxElem {α : Type} (p : α → Bool) : List α → Option (Nat × α)
  | [] => none
  | a :: l =>
      if p a then some (0, a)
      else (findIdxElem p l).map (fun r => (r.1 + 1, r.2))

/-- The JS array element assignment `list[idx] = b` for an index inside
the list (out-of-range indices leave the list unchanged; the source only
assigns indices returned by `findIndex`). -/
def setIdx {α : Type} : List α → Nat → α → List α
  | [], _, _ => []
  | _ :: l, 0, b => b :: l
  | a :: l, n + 1, b => a :: setIdx l n b

/-- `DocViewer.saveSidebarAnnotation` (doc-viewer.tsx lines 250-268),
the implementation of the spec's `saveComment`: bails out when no page
or no id is selected (JS falsiness: `null`, page `0`, or the empty
string); otherwise pushes the pre-call snapshot to history, locates the
selected comment by id with `findIndex`, returns without touching
`comments` when the id is absent (`idx < 0`), and otherwise replaces
that record's `text` and `tag` with the sidebar draft values, keeping
all other fields via the JS spread of the old record. -/
def saveSidebarAnnotationFn (st : ViewerState) : ViewerState :=
  match st.sidebarPage, st.sidebarSelectedId with
  | some page, some sid =>
      if page = 0 ∨ sid = "" then st
      else
        let h' := st.history.pushState st.snapshot
        let list := st.comments page
        match findIdxElem (fun c => c.id == sid) list with
        | none => { st with history := h' }
        | some (idx, c) =>
            let updated := setIdx list idx
              { c with text := st.sidebarDraftText, tag := st.sidebarDraftTag }
            { st with history := h', comments := st.comments.setPage page updated }
  | _, _ => st

/-- The result of `JSON.parse` on an imported file as consumed by
`onImportFileChange` (doc-viewer.tsx lines 330-356): the top-level keys
it reads, each `none` when missing or JS-falsy (`data.x || def` /
`if (data.x)`). -/
structure ImportData where
  annotations : Option (PageMap NormalizedRect)
  comments : Option (PageMap PageComment)
  theme : Option Theme
  mode : Option Mode
  activeTool : Option Tool

/-- `DocViewer.onImportFileChange` (doc-viewer.tsx lines 330-356) after
the file has been read: `parsed` is the outcome of `JSON.parse` inside
the `try`, with `none` modelling a thrown parse error, which the `catch`
silently ignores so the state is returned unchanged.  On success it
pushes the pre-import snapshot, then replaces the annotations and
comments mappings wholesale with the imported ones, defaulting each to
the empty object, and adopts theme, mode and tool when present. -/
def onImportFileChange (parsed : Option ImportData) (st : ViewerState) :
    ViewerState :=
  match parsed with
  | none => st
  | some data =>
      let h' := st.history.pushState st.snapshot
      { st with
          history := h',
          annotations := data.annotations.getD (PageMap.empty NormalizedRect),
          comments := data.comments.getD (PageMap.empty PageComment),
          theme := data.theme.getD st.theme,
          mode := data.mode.getD st.mode,
          activeTool := data.activeTool.getD st.activeTool }

/-- A pixel rectangle relative to the annotation layer's bounding box:
the inline style of the rubber-band div in doc-page.tsx, and the pixel
geometry produced when rendering a stored rectangle. -/
structure PixelRect where
  left : ℚ
  top : ℚ
  width : ℚ
  height : ℚ
deriving DecidableEq, Repr

/-- The normalization performed by `DocPage.onMouseUp` (doc-page.tsx
lines 294-300): divides left and width by the layer width and top and
height by the layer height. -/
def toNormalized (r : PixelRect) (surfaceW surfaceH : ℚ) : NormalizedRect :=
  { x := r.left / surfaceW
    y := r.top / surfaceH
    width := r.width / surfaceW
    height := r.height / surfaceH }

/-- The pixel geometry computed by `DocPage.redrawHighlightsFromProps`
(doc-page.tsx lines 370-377): multiplies each stored fraction by the
layer's current width or height. -/
def toPixels (a : NormalizedRect) (surfaceW surfaceH : ℚ) : PixelRect :=
  { left := a.x * surfaceW
    top := a.y * surfaceH
    width := a.width * surfaceW
    height := a.height * surfaceH }

/-- The drawing-gesture state read by `DocPage.onMouseUp`: the
`isDrawing` flag, the rubber-band rectangle (absent when
`currentRectEl` is `null`), and the annotation layer's bounding box
size. -/
structure DrawGesture where
  isDrawing : Bool
  currentRect : Option PixelRect
  layerWidth : ℚ
  layerHeight : ℚ

/-- `DocPage.onMouseUp` (doc-page.tsx lines 284-307), restricted to its
observable output: the `annotationCreated` intent it emits, or `none`.
Returns early when read-only, not drawing, or no rubber-band element
exists; emits if and only if the drawn width and height strictly exceed
3 pixels and the layer's width and height are JS-truthy (nonzero); the
rubber-band element is removed either way and nothing else happens. -/
def onMouseUp (readOnly : Bool) (page : Nat) (g : DrawGesture) :
    Option (Nat × NormalizedRect) :=
  if readOnly then none
  else if !g.isDrawing then none
  else
    match g.currentRect with
    | none => none
    | some r =>
        if r.width > 3 ∧ r.height > 3 ∧ g.layerWidth ≠ 0 ∧ g.layerHeight ≠ 0 then
          some (page, toNormalized r g.layerWidth g.layerHeight)
        else none

/-- A concrete viewer state used to instantiate the theorems: the state
of a freshly mounted component before any load or edit. -/
def testViewerState : ViewerState :=
  { annotations := PageMap.empty NormalizedRect
    comments := PageMap.empty PageComment
    history := HistoryManager.new Snapshot
    sidebarOpen := false
    sidebarPage := none
    sidebarSelectedId := none
    sidebarDraftText := ""
    sidebarDraftTag := "None"
    theme := Theme.light
    mode := Mode.editor
    activeTool := Tool.select }

/-- A concrete stored comment used to instantiate the theorems. -/
def testComment : PageComment :=
  { id := "c1"
    kind := AnnotationKind.comment
    x := 1 / 2
    y := 1 / 2
    text := ""
    tag := "None"
    createdAt := "2024-01-01T00:00:00.000Z" }

/-- A concrete viewer state with one comment on page 1 selected in the
sidebar and nonempty draft fields. -/
def testStateWithComment : ViewerState :=
  { testViewerState with
      sidebarOpen := true
      sidebarPage := some 1
      sidebarSelectedId := some "c1"
      sidebarDraftText := "hello"
      sidebarDraftTag := "Todo"
      comments := (PageMap.empty PageComment).setPage 1 [testComment] }

/-- A concrete viewer state whose selected id matches no stored comment
and whose redo stack is nonempty (as after an undo). -/
def testStateMissingId : ViewerState :=
  { testStateWithComment with
      sidebarSelectedId := some "zz"
      history := HistoryManager.mk []
        [Snapshot.mk (PageMap.empty NormalizedRect) (PageMap.empty PageComment)] }

/-- The parsed form of the scenario import file: an annotations key with
one rectangle on page 1 and no comments key. -/
def testImportData : ImportData :=
  { annotations := some ((PageMap.empty NormalizedRect).setPage 1
        [NormalizedRect.mk 0 0 (1 / 5) (1 / 5)])
    comments := none
    theme := none
    mode := none
    activeTool := none }

/-- C1 helper lemma: running `undo` once per undo-stack entry and adopting
each returned snapshot ends at the bottom entry of the undo stack (or at
the starting state when the stack is empty). -/
theorem undoAdopt_length {T : Type} (m : HistoryManager T) (c : T) :
    (undoAdopt m c m.undoStack.length).2 = m.undoStack.getLastD c := by
  obtain ⟨u, r⟩ := m
  induction u generalizing r c with
  | nil => rfl
  | cons a u' ih =>
      simp only [List.length_cons, undoAdopt, HistoryManager.undo]
      rw [ih, List.getLastD_cons]

/-- C1 helper lemma: the undo stack after a pushState-then-mutate run
holds, top first, the states passed to the `pushState` calls, i.e. the
reverse of all but the last element of `s :: muts`. -/
theorem pushMutateRun_undoStack {T : Type} :
    ∀ (muts : List T) (h : HistoryManager T) (s : T),
      ((pushMutateRun h s muts).1).undoStack
        = ((s :: muts).dropLast).reverse ++ h.undoStack := by
  intro muts
  induction muts with
  | nil => intro h s; rfl
  | cons s' rest ih =>
      intro h s
      simp only [pushMutateRun]
      rw [ih (h.pushState s) s']
      simp [HistoryManager.pushState, List.dropLast_cons_of_ne_nil]

/-- C1 helper lemma: the current state after a pushState-then-mutate run
is the last mutated state (or the starting state for an empty run). -/
theorem pushMutateRun_current {T : Type} :
    ∀ (muts : List T) (h : HistoryManager T) (s : T),
      (pushMutateRun h s muts).2 = muts.getLastD s := by
  intro muts
  induction muts with
  | nil => intro h s; rfl
  | cons s' rest ih =>
      intro h s
      simp only [pushMutateRun, List.getLastD_cons]
      exact ih (h.pushState s) s'

/-- C1: for every starting state and every sequence of N pushState-then-
mutate pairs performed on a fresh HistoryManager (each pushState passed
the state as it was immediately before that mutation), N successive undo
calls afterwards, each adopting the returned snapshot as the new current
state, leave the final state equal to the state before the first
mutation. -/
theorem historyManager_n_undos_restore_initial {T : Type}
    (s0 : T) (muts : List T) :
    (undoAdopt (pushMutateRun (HistoryManager.new T) s0 muts).1
        (pushMutateRun (HistoryManager.new T) s0 muts).2 muts.length).2
      = s0 := by
  have hu := pushMutateRun_undoStack muts (HistoryManager.new T) s0
  have hc := pushMutateRun_current muts (HistoryManager.new T) s0
  have hlen : ((pushMutateRun (HistoryManager.new T) s0 muts).1).undoStack.length
      = muts.length := by
    rw [hu]
    simp [HistoryManager.new]
  rw [hc, ← hlen, undoAdopt_length, hu]
  cases muts with
  | nil => simp [HistoryManager.new]
  | cons m ms =>
      simp only [HistoryManager.new, List.append_nil,
        List.dropLast_cons_of_ne_nil (List.cons_ne_nil m ms),
        List.reverse_cons]
      rw [List.getLastD_concat]

/-- C3: after any undo call that returned a snapshot, an immediately
following redo call passed the post-undo current state returns the state
that was current immediately before that undo; and every pushState call
clears the redo stack unconditionally, so after any pushState the next
redo returns none regardless of how many undos preceded it. -/
theorem historyManager_redo_after_undo {T : Type} (h : HistoryManager T)
    (c : T) :
    (∀ (s : T) (h' : HistoryManager T),
        h.undo c = (some s, h') → (h'.redo s).1 = some c) ∧
    (∀ x y : T,
        (h.pushState x).redoStack = [] ∧ ((h.pushState x).redo y).1 = none) := by
  constructor
  · intro s h' heq
    cases hu : h.undoStack with
    | nil => simp [HistoryManager.undo, hu] at heq
    | cons top rest =>
        simp only [HistoryManager.undo, hu, Prod.mk.injEq, Option.some.injEq]
          at heq
        obtain ⟨hs, hh⟩ := heq
        subst hs
        subst hh
        simp [HistoryManager.redo]
  · intro x y
    constructor
    · rfl
    · rfl

/-- C3 witness: on the concrete manager with undo stack `[5]`, an undo at
current state `7` returns snapshot `5`, and the immediately following
redo passed `5` returns `7`; and a pushState leaves the next redo
returning none. -/
theorem historyManager_redo_after_undo_witness :
    ((HistoryManager.mk [5] [] : HistoryManager ℕ).undo 7
        = (some 5, HistoryManager.mk [] [7])) ∧
    ((HistoryManager.mk [] [7] : HistoryManager ℕ).redo 5).1 = some 7 ∧
    (((HistoryManager.mk [5] [] : HistoryManager ℕ).pushState 9).redo 5).1
        = none :=
  ⟨by decide,
   (historyManager_redo_after_undo (HistoryManager.mk [5] []) 7).1 5
      (HistoryManager.mk [] [7]) (by decide),
   ((historyManager_redo_after_undo (HistoryManager.mk [5] []) 7).2 9 5).2⟩

/-- C4: when the undo stack is empty, undo returns none and changes
neither stack and no part of the manager; the caller `DocViewer.undo`
then leaves the canonical viewer state unchanged; redo behaves
symmetrically when the redo stack is empty; all three operations are
total functions of the model (nothing throws). -/
theorem historyManager_empty_stacks_noop :
    (∀ (T : Type) (h : HistoryManager T) (c : T),
        (h.undoStack = [] → h.undo c = (none, h)) ∧
        (h.redoStack = [] → h.redo c = (none, h))) ∧
    (∀ st : ViewerState,
        (st.history.undoStack = [] → viewerUndo st = st) ∧
        (st.history.redoStack = [] → viewerRedo st = st)) := by
  constructor
  · intro T h c
    constructor
    · intro he
      simp [HistoryManager.undo, he]
    · intro he
      simp [HistoryManager.redo, he]
  · intro st
    constructor
    · intro he
      simp [viewerUndo, HistoryManager.undo, he]
    · intro he
      simp [viewerRedo, HistoryManager.redo, he]

/-- C4 witness: on the fresh manager both operations are no-ops, and on
the fresh concrete viewer state both viewer operations return the state
unchanged. -/
theorem historyManager_empty_stacks_noop_witness :
    (HistoryManager.new ℕ).undo 0 = (none, HistoryManager.new ℕ) ∧
    (HistoryManager.new ℕ).redo 0 = (none, HistoryManager.new ℕ) ∧
    viewerUndo testViewerState = testViewerState ∧
    viewerRedo testViewerState = testViewerState :=
  ⟨(historyManager_empty_stacks_noop.1 ℕ (HistoryManager.new ℕ) 0).1 rfl,
   (historyManager_empty_stacks_noop.1 ℕ (HistoryManager.new ℕ) 0).2 rfl,
   (historyManager_empty_stacks_noop.2 testViewerState).1 rfl,
   (historyManager_empty_stacks_noop.2 testViewerState).2 rfl⟩

/-- C2: for every pixel rectangle fully inside the surface and every
surface with nonzero width and height, normalizing as the pointer-up
handler does and converting back to pixels as the redraw code does
yields the original rectangle; over exact rational arithmetic the
round trip is the identity, hence in particular within floating-point
tolerance. -/
theorem toNormalized_toPixels_roundtrip (r : PixelRect) (sw sh : ℚ)
    (hw : sw ≠ 0) (hh : sh ≠ 0)
    (_hx0 : 0 ≤ r.left) (_hx1 : r.left + r.width ≤ sw)
    (_hy0 : 0 ≤ r.top) (_hy1 : r.top + r.height ≤ sh) :
    toPixels (toNormalized r sw sh) sw sh = r := by
  simp [toNormalized, toPixels, div_mul_cancel₀, hw, hh]

/-- C2 witness: the round trip at the concrete rectangle
(10, 20, 100, 50) on a 1000 by 500 surface. -/
theorem toNormalized_toPixels_roundtrip_witness :
    toPixels (toNormalized (PixelRect.mk 10 20 100 50) 1000 500) 1000 500
      = PixelRect.mk 10 20 100 50 :=
  toNormalized_toPixels_roundtrip (PixelRect.mk 10 20 100 50) 1000 500
    (by norm_num) (by norm_num) (by norm_num) (by norm_num) (by norm_num)
    (by norm_num)

/-- C5: normalization divides each coordinate by the surface width or
height respectively and rendering multiplies back; the pixel rectangle
(left 10, top 20, width 100, height 50) captured on a 1000 by 500
surface is stored as the normalized rectangle (0.01, 0.04, 0.1, 0.1),
and re-rendering that stored rectangle on an 800 by 400 surface yields
the pixel rectangle (8, 16, 80, 40). -/
theorem coordinate_model_scenario :
    (∀ (r : PixelRect) (sw sh : ℚ),
        toNormalized r sw sh
          = NormalizedRect.mk (r.left / sw) (r.top / sh) (r.width / sw)
              (r.height / sh)) ∧
    (∀ (a : NormalizedRect) (sw sh : ℚ),
        toPixels a sw sh
          = PixelRect.mk (a.x * sw) (a.y * sh) (a.width * sw)
              (a.height * sh)) ∧
    toNormalized (PixelRect.mk 10 20 100 50) 1000 500
        = NormalizedRect.mk 0.01 0.04 0.1 0.1 ∧
    toPixels (NormalizedRect.mk 0.01 0.04 0.1 0.1) 800 400
        = PixelRect.mk 8 16 80 40 := by
  refine ⟨fun r sw sh => rfl, fun a sw sh => rfl, ?_, ?_⟩
  · show NormalizedRect.mk (10 / 1000) (20 / 500) (100 / 1000) (50 / 500)
        = NormalizedRect.mk 0.01 0.04 0.1 0.1
    norm_num
  · show PixelRect.mk (0.01 * 800) (0.04 * 400) (0.1 * 800) (0.1 * 400)
        = PixelRect.mk 8 16 80 40
    norm_num

/-- C6: on pointer-up ending a drawing gesture, an annotation-creation
intent carrying the normalized rectangle is emitted if and only if the
drawn pixel width and height each exceed the 3-pixel epsilon and the
layer's width and height are both nonzero; a sub-threshold drag or a
zero-size surface is silently discarded: no intent is emitted. -/
theorem onMouseUp_emits_iff_threshold (page : Nat) (g : DrawGesture)
    (r : PixelRect) (hd : g.isDrawing = true) (hr : g.currentRect = some r) :
    ((∃ out, onMouseUp false page g = some out) ↔
        (r.width > 3 ∧ r.height > 3 ∧ g.layerWidth ≠ 0 ∧ g.layerHeight ≠ 0)) ∧
    (¬(r.width > 3 ∧ r.height > 3 ∧ g.layerWidth ≠ 0 ∧ g.layerHeight ≠ 0) →
        onMouseUp false page g = none) ∧
    (∀ (p : Nat) (rect : NormalizedRect),
        onMouseUp false page g = some (p, rect) →
        p = page ∧ rect = toNormalized r g.layerWidth g.layerHeight) := by
  have hm : onMouseUp false page g
      = if r.width > 3 ∧ r.height > 3 ∧ g.layerWidth ≠ 0 ∧ g.layerHeight ≠ 0
        then some (page, toNormalized r g.layerWidth g.layerHeight)
        else none := by
    simp [onMouseUp, hd, hr]
  rw [hm]
  by_cases hc : r.width > 3 ∧ r.height > 3 ∧ g.layerWidth ≠ 0 ∧ g.layerHeight ≠ 0
  · refine ⟨?_, ?_, ?_⟩
    · simp [hc]
    · intro hnc
      exact absurd hc hnc
    · intro p rect hsome
      rw [if_pos hc] at hsome
      have h2 := Option.some.inj hsome
      have hp : page = p := congrArg Prod.fst h2
      have hn : toNormalized r g.layerWidth g.layerHeight = rect :=
        congrArg Prod.snd h2
      exact ⟨hp.symm, hn.symm⟩
  · refine ⟨?_, fun _ => if_neg hc, ?_⟩
    · simp [hc]
    · intro p rect hsome
      rw [if_neg hc] at hsome
      exact absurd hsome (by simp)

/-- C6 witness: a 10 by 10 pixel drag on a 100 by 100 layer emits an
intent, and a 2 by 2 pixel drag does not. -/
theorem onMouseUp_emits_iff_threshold_witness :
    (∃ out,
        onMouseUp false 1
          (DrawGesture.mk true (some (PixelRect.mk 0 0 10 10)) 100 100)
          = some out) ∧
    onMouseUp false 1
        (DrawGesture.mk true (some (PixelRect.mk 0 0 2 2)) 100 100)
      = none :=
  ⟨((onMouseUp_emits_iff_threshold 1
        (DrawGesture.mk true (some (PixelRect.mk 0 0 10 10)) 100 100)
        (PixelRect.mk 0 0 10 10) rfl rfl).1).2 (by norm_num),
   ((onMouseUp_emits_iff_threshold 1
        (DrawGesture.mk true (some (PixelRect.mk 0 0 2 2)) 100 100)
        (PixelRect.mk 0 0 2 2) rfl rfl).2).1 (by norm_num)⟩

/-- Helper: a successful `findIndex` returns an in-range index whose
element satisfies the predicate. -/
theorem findIdxElem_some {α : Type} (p : α → Bool) :
    ∀ (l : List α) (i : Nat) (a : α),
      findIdxElem p l = some (i, a) → l.get? i = some a ∧ p a = true := by
  intro l
  induction l with
  | nil => intro i a h; simp [findIdxElem] at h
  | cons b l ih =>
      intro i a h
      by_cases hb : p b = true
      · simp only [findIdxElem] at h
        rw [if_pos hb] at h
        have h2 := Option.some.inj h
        have hi : (0 : Nat) = i := congrArg Prod.fst h2
        have ha : b = a := congrArg Prod.snd h2
        subst hi
        subst ha
        exact ⟨rfl, hb⟩
      · simp only [findIdxElem] at h
        rw [if_neg hb, Option.map_eq_some'] at h
        obtain ⟨⟨i', a'⟩, hfind, heq⟩ := h
        have hi : i' + 1 = i := congrArg Prod.fst heq
        have ha : a' = a := congrArg Prod.snd heq
        subst hi
        subst ha
        obtain ⟨hg, hpa⟩ := ih i' a' hfind
        exact ⟨hg, hpa⟩

/-- Helper: a failed `findIndex` means no element satisfies the
predicate. -/
theorem findIdxElem_none {α : Type} (p : α → Bool) :
    ∀ l : List α, findIdxElem p l = none → ∀ a ∈ l, p a = false := by
  intro l
  induction l with
  | nil => intro h a ha; simp at ha
  | cons b l ih =>
      intro h a ha
      by_cases hb : p b = true
      · simp only [findIdxElem] at h
        rw [if_pos hb] at h
        exact absurd h (by simp)
      · simp only [findIdxElem] at h
        rw [if_neg hb, Option.map_eq_none'] at h
        rcases List.mem_cons.mp ha with hab | hal
        · subst hab
          simpa using hb
        · exact ih h a hal

/-- Helper: assigning index `i` overwrites the element read at `i`. -/
theorem setIdx_get_self {α : Type} :
    ∀ (l : List α) (i : Nat) (a b : α),
      l.get? i = some a → (setIdx l i b).get? i = some b := by
  intro l
  induction l with
  | nil => intro i a b h; simp at h
  | cons c l ih =>
      intro i a b h
      cases i with
      | zero => rfl
      | succ n => exact ih n a b h

/-- Helper: assigning index `i` leaves every other index unchanged. -/
theorem setIdx_get_ne {α : Type} :
    ∀ (l : List α) (i j : Nat) (b : α),
      j ≠ i → (setIdx l i b).get? j = l.get? j := by
  intro l
  induction l with
  | nil => intro i j b _; rfl
  | cons c l ih =>
      intro i j b hne
      cases i with
      | zero =>
          cases j with
          | zero => exact absurd rfl hne
          | succ m => rfl
      | succ n =>
          cases j with
          | zero => rfl
          | succ m => exact ih n m b (fun h => hne (by rw [h]))

/-- C7: for every selected page and id, if a record with that id exists
in the page's comment list, the save operation replaces exactly the
first such record's text and tag fields with the sidebar draft values
while preserving its id, kind, x, y and createdAt, and leaves every
other record on that page and every other page's list unchanged; if no
record with that id exists, the entire comments mapping is left
unchanged (and the model is a total function: nothing is raised). -/
theorem saveComment_replaces_or_noop (st : ViewerState) (page : Nat)
    (sid : String) (hp : st.sidebarPage = some page)
    (hs : st.sidebarSelectedId = some sid) (hp0 : page ≠ 0)
    (hs0 : sid ≠ "") :
    (∀ (i : Nat) (c : PageComment),
        findIdxElem (fun c => c.id == sid) (st.comments page) = some (i, c) →
        c.id = sid ∧
        ((saveSidebarAnnotationFn st).comments page).get? i
            = some { c with text := st.sidebarDraftText,
                            tag := st.sidebarDraftTag } ∧
        (∀ j : Nat, j ≠ i →
            ((saveSidebarAnnotationFn st).comments page).get? j
              = (st.comments page).get? j) ∧
        (∀ q : Nat, q ≠ page →
            (saveSidebarAnnotationFn st).comments q = st.comments q)) ∧
    (findIdxElem (fun c => c.id == sid) (st.comments page) = none →
        ((saveSidebarAnnotationFn st).comments = st.comments ∧
         ∀ a ∈ st.comments page, a.id ≠ sid)) := by
  have hif : ¬(page = 0 ∨ sid = "") := by
    rintro (h0 | h0)
    · exact hp0 h0
    · exact hs0 h0
  constructor
  · intro i c hfind
    have hsome := findIdxElem_some (fun c => c.id == sid)
      (st.comments page) i c hfind
    have hidc : c.id = sid := by
      have := hsome.2
      simpa using this
    have hred : saveSidebarAnnotationFn st
        = { st with history := st.history.pushState st.snapshot,
                    comments := st.comments.setPage page
                      (setIdx (st.comments page) i
                        { c with text := st.sidebarDraftText,
                                 tag := st.sidebarDraftTag }) } := by
      simp only [saveSidebarAnnotationFn, hp, hs]
      rw [if_neg hif, hfind]
    refine ⟨hidc, ?_, ?_, ?_⟩
    · rw [hred]
      simp only [PageMap.setPage, if_pos rfl]
      exact setIdx_get_self (st.comments page) i c _ hsome.1
    · intro j hj
      rw [hred]
      simp only [PageMap.setPage, if_pos rfl]
      exact setIdx_get_ne (st.comments page) i j _ hj
    · intro q hq
      rw [hred]
      simp only [PageMap.setPage]
      rw [if_neg hq]
  · intro hmiss
    have hred : saveSidebarAnnotationFn st
        = { st with history := st.history.pushState st.snapshot } := by
      simp only [saveSidebarAnnotationFn, hp, hs]
      rw [if_neg hif, hmiss]
    constructor
    · rw [hred]
    · intro a ha
      have := findIdxElem_none (fun c => c.id == sid)
        (st.comments page) hmiss a ha
      simpa using this

/-- C7 witness: on the concrete state with one stored comment of id c1
selected and drafts hello and Todo, the save stores the updated record
at index 0 of page 1 and a state whose selected id misses leaves the
comments mapping unchanged. -/
theorem saveComment_replaces_or_noop_witness :
    ((saveSidebarAnnotationFn testStateWithComment).comments 1).get? 0
        = some { testComment with text := "hello", tag := "Todo" } ∧
    (saveSidebarAnnotationFn testStateMissingId).comments
        = testStateMissingId.comments :=
  ⟨((saveComment_replaces_or_noop testStateWithComment 1 "c1" rfl rfl
      (by decide) (by decide)).1 0 testComment rfl).2.1,
   (((saveComment_replaces_or_noop testStateMissingId 1 "zz" rfl rfl
      (by decide) (by decide)).2 rfl).1)⟩

/-- C8: when the imported data fails to parse as JSON (the parse outcome
is none), the import handler leaves the whole viewer state, and in
particular the annotations mapping, the comments mapping and the
undo/redo history, exactly as they were; the model is a total function,
so no exception propagates. -/
theorem import_parse_failure_noop (st : ViewerState) :
    onImportFileChange none st = st ∧
    (onImportFileChange none st).annotations = st.annotations ∧
    (onImportFileChange none st).comments = st.comments ∧
    (onImportFileChange none st).history = st.history :=
  ⟨rfl, rfl, rfl, rfl⟩

/-- C9: on successfully parsed import data the handler first pushes the
pre-import snapshot onto the undo stack (clearing redo), then replaces
annotations wholesale with the imported mapping when present and the
empty mapping otherwise, and comments likewise; importing data with an
annotations key but no comments key yields an empty comments mapping. -/
theorem importSnapshot_replaces_wholesale (data : ImportData)
    (st : ViewerState) :
    (onImportFileChange (some data) st).history.undoStack
        = st.snapshot :: st.history.undoStack ∧
    (onImportFileChange (some data) st).history.redoStack = [] ∧
    (∀ m, data.annotations = some m →
        (onImportFileChange (some data) st).annotations = m) ∧
    (data.annotations = none →
        ∀ p, (onImportFileChange (some data) st).annotations p = []) ∧
    (∀ m, data.comments = some m →
        (onImportFileChange (some data) st).comments = m) ∧
    (data.comments = none →
        ∀ p, (onImportFileChange (some data) st).comments p = []) := by
  refine ⟨rfl, rfl, ?_, ?_, ?_, ?_⟩
  · intro m hm
    simp [onImportFileChange, hm]
  · intro hm p
    simp [onImportFileChange, hm, PageMap.empty]
  · intro m hm
    simp [onImportFileChange, hm]
  · intro hm p
    simp [onImportFileChange, hm, PageMap.empty]

/-- C9 witness: importing the scenario data, which has an annotations
key but no comments key, yields an empty comments list on every queried
page and stores the imported rectangle on page 1. -/
theorem importSnapshot_replaces_wholesale_witness :
    (onImportFileChange (some testImportData) testViewerState).comments 1
        = [] ∧
    (onImportFileChange (some testImportData) testViewerState).annotations 1
        = [NormalizedRect.mk 0 0 (1 / 5) (1 / 5)] :=
  ⟨(importSnapshot_replaces_wholesale testImportData
      testViewerState).2.2.2.2.2 rfl 1,
   by
    rw [(importSnapshot_replaces_wholesale testImportData
      testViewerState).2.2.1 _ rfl]
    rfl⟩

/-- C10: a save invoked with a selected id absent from the page's
comment list still pushes the pre-call snapshot onto the undo stack and
clears the redo stack before discovering the miss, so any redo returns
none afterwards even though the comments mapping itself is unchanged. -/
theorem saveComment_missing_id_pushes_history (st : ViewerState)
    (page : Nat) (sid : String) (hp : st.sidebarPage = some page)
    (hs : st.sidebarSelectedId = some sid) (hp0 : page ≠ 0) (hs0 : sid ≠ "")
    (hmiss : findIdxElem (fun c => c.id == sid) (st.comments page) = none) :
    (saveSidebarAnnotationFn st).history.undoStack
        = st.snapshot :: st.history.undoStack ∧
    (saveSidebarAnnotationFn st).history.redoStack = [] ∧
    (saveSidebarAnnotationFn st).comments = st.comments ∧
    (∀ cur : Snapshot,
        ((saveSidebarAnnotationFn st).history.redo cur).1 = none) := by
  have hif : ¬(page = 0 ∨ sid = "") := by
    rintro (h0 | h0)
    · exact hp0 h0
    · exact hs0 h0
  have hred : saveSidebarAnnotationFn st
      = { st with history := st.history.pushState st.snapshot } := by
    simp only [saveSidebarAnnotationFn, hp, hs]
    rw [if_neg hif, hmiss]
  rw [hred]
  refine ⟨rfl, rfl, rfl, ?_⟩
  intro cur
  rfl

/-- C10 witness: on the concrete state whose redo stack is nonempty (a
redo would succeed) and whose selected id zz matches no record, the
failed save still clears the redo stack, so the next redo returns none,
while the comments mapping is unchanged. -/
theorem saveComment_missing_id_pushes_history_witness :
    (testStateMissingId.history.redo testStateMissingId.snapshot).1.isSome
        = true ∧
    ((saveSidebarAnnotationFn testStateMissingId).history.redo
        testStateMissingId.snapshot).1 = none ∧
    (saveSidebarAnnotationFn testStateMissingId).history.undoStack
        = testStateMissingId.snapshot :: [] :=
  ⟨rfl,
   (saveComment_missing_id_pushes_history testStateMissingId 1 "zz" rfl rfl
      (by decide) (by decide) rfl).2.2.2 testStateMissingId.snapshot,
   (saveComment_missing_id_pushes_history testStateMissingId 1 "zz" rfl rfl
      (by decide) (by decide) rfl).1⟩
